import Mathlib

/-!
# Verification of the Agentic Batch Loop Engine

A shallow embedding of the batch loop engine (`core/types.ts`, `core/engine.ts`,
`core/llm.ts`): the per-item state machine, the worker invoker with timeout,
the bounded-concurrency scheduler driving items through transitions with a
checkpoint flush after every transition, and the checkpoint store.

JSON documents are modelled by the `Json` inductive; the checkpoint file is
modelled at the level of its parsed JSON document.  JavaScript numbers that the
engine uses as counters (`attempts`, `completedCount`, `failedCount`,
`concurrency`, `maxRetries`, `itemTimeoutMs`) are modelled as `Int`, with the
JavaScript truthiness of `x || d` (`0` is falsy) made explicit.
-/

namespace LoopEngineModel

/-- A JSON document (the opaque payloads the engine round-trips). -/
inductive Json where
  | null : Json
  | bool (b : Bool) : Json
  | num (n : Int) : Json
  | str (s : String) : Json
  | arr (elems : List Json) : Json
  | obj (fields : List (String × Json)) : Json
deriving Repr

/-- `ItemStatus` from `core/types.ts`:
`'pending' | 'processing' | 'completed' | 'failed' | 'awaiting_agent'`. -/
inductive ItemStatus where
  | pending
  | processing
  | completed
  | failed
  | awaiting_agent
deriving DecidableEq, Repr

/-- `BatchItem` from `core/types.ts`.  Optional fields (`lastError?`,
`pendingPrompt?`, `output?`, `logs?`) are `Option`s; a JavaScript property that
is absent or `undefined` is `none`. -/
structure BatchItem where
  id : String
  data : Json
  status : ItemStatus
  attempts : Int
  lastError : Option String := none
  pendingPrompt : Option Json := none
  output : Option Json := none
  logs : Option (List String) := none
deriving Repr

instance : Inhabited BatchItem :=
  ⟨{ id := "", data := Json.null, status := ItemStatus.pending, attempts := 0 }⟩

/-- `Checkpoint` from `core/types.ts`. -/
structure Checkpoint where
  jobId : String
  startTime : String
  items : List BatchItem
  completedCount : Int
  failedCount : Int
deriving Repr

/-- `LoopConfig` from `core/types.ts`.  `inputData?: any[]` is an optional
JSON array; `concurrency`, `maxRetries`, `itemTimeoutMs` are optional numbers. -/
structure LoopConfig where
  inputPath : String
  checkpointPath : String
  concurrency : Option Int := none
  maxRetries : Option Int := none
  itemTimeoutMs : Option Int := none
  inputData : Option (List Json) := none

/-- `this.config.maxRetries || 3` — JavaScript `||` with `0` falsy.
(The constructor's spread default `maxRetries: 3` is subsumed: an absent field
also falls through `||` to `3`.) -/
def LoopConfig.maxRetriesEff (cfg : LoopConfig) : Int :=
  match cfg.maxRetries with
  | some n => if n = 0 then 3 else n
  | none => 3

/-- `this.config.concurrency || 1`. -/
def LoopConfig.concurrencyEff (cfg : LoopConfig) : Int :=
  match cfg.concurrency with
  | some n => if n = 0 then 1 else n
  | none => 1

/-- Item lookup by index in the checkpoint's item array. -/
def itemAt (cp : Checkpoint) (i : Nat) : BatchItem :=
  cp.items.getD i default

/-- Replace the item at index `i` by `f` of its current value
(the engine mutates items in place). -/
def Checkpoint.updItem (cp : Checkpoint) (i : Nat) (f : BatchItem → BatchItem) :
    Checkpoint :=
  { cp with items := cp.items.set i (f (itemAt cp i)) }

/-! ## Worker invoker (`processItem` try-block, `core/llm.ts` error classes) -/

/-- A JavaScript error thrown by a worker: either the `AgentBridgeError`
sentinel from `core/llm.ts` (carrying `messages: any[]`), or any other error,
of which the engine keeps `error.message` (`String(error)` for non-`Error`s). -/
inductive JsError where
  | bridge (messages : List Json) : JsError
  | other (message : String) : JsError
deriving Repr

/-- The settled result of the worker's promise: resolved with a value, or
rejected with an error. -/
inductive WorkerResult where
  | ok (value : Json) : WorkerResult
  | err (e : JsError) : WorkerResult
deriving Repr

/-- The observable behaviour of one worker invocation: when (in ms) its
promise settles, and with what result. -/
structure WorkerBehavior where
  settleTime : Int
  result : WorkerResult

/-- The invoker: `processItem` races the worker promise against a
`setTimeout` rejection when `this.config.itemTimeoutMs && this.config.itemTimeoutMs > 0`.
The timer wins exactly when the worker has not settled within `itemTimeoutMs`. -/
def invoke (cfg : LoopConfig) (w : WorkerBehavior) : WorkerResult :=
  match cfg.itemTimeoutMs with
  | some t =>
      if 0 < t then
        if t < w.settleTime then
          WorkerResult.err (JsError.other
            ("Operation timed out after " ++ toString t ++ "ms"))
        else w.result
      else w.result
  | none => w.result

/-! ## Item state machine (`processItem`) -/

/-- Entry into `processing`: `item.status = 'processing'; item.attempts++`
(followed by a checkpoint flush). -/
def dispatchItem (it : BatchItem) : BatchItem :=
  { it with status := ItemStatus.processing, attempts := it.attempts + 1 }

/-- The `try`/`catch` outcome application of `processItem`, acting on the item
(whose `attempts` was already incremented on dispatch):
* resolved: `status = 'completed'`, `output = result`;
* `AgentBridgeError`: `status = 'awaiting_agent'`, `pendingPrompt = error.messages`,
  `item.attempts--`;
* any other error: `lastError = message`, `status = 'failed'`. -/
def applyResult (r : WorkerResult) (it : BatchItem) : BatchItem :=
  match r with
  | WorkerResult.ok v =>
      { it with status := ItemStatus.completed, output := some v }
  | WorkerResult.err (JsError.bridge msgs) =>
      { it with status := ItemStatus.awaiting_agent,
                pendingPrompt := some (Json.arr msgs),
                attempts := it.attempts - 1 }
  | WorkerResult.err (JsError.other msg) =>
      { it with lastError := some msg, status := ItemStatus.failed }

/-- `this.checkpoint.completedCount++` happens exactly on the resolved path. -/
def completedDelta (r : WorkerResult) : Int :=
  match r with
  | WorkerResult.ok _ => 1
  | _ => 0

/-- `if (item.attempts >= (this.config.maxRetries || 3)) this.checkpoint.failedCount++`
on the non-bridge error path; `it` is the item at `catch` time (attempts already
incremented). -/
def failedDelta (cfg : LoopConfig) (r : WorkerResult) (it : BatchItem) : Int :=
  match r with
  | WorkerResult.err (JsError.other _) =>
      if cfg.maxRetriesEff ≤ it.attempts then 1 else 0
  | _ => 0

/-- The whole-checkpoint effect of `processItem`'s outcome handling on item `i`
(the `finally { this.saveCheckpoint() }` then flushes this state). -/
def finishCheckpoint (cfg : LoopConfig) (i : Nat) (r : WorkerResult)
    (cp : Checkpoint) : Checkpoint :=
  let it := itemAt cp i
  { cp with
    items := cp.items.set i (applyResult r it),
    completedCount := cp.completedCount + completedDelta r,
    failedCount := cp.failedCount + failedDelta cfg r it }

/-- `item.logs = item.logs || []; item.logs.push(msg)` — the `WorkerContext.log`
callback handed to the worker. -/
def appendLog (msg : String) (it : BatchItem) : BatchItem :=
  { it with logs := some ((it.logs.getD []) ++ [msg]) }

/-! ## Eligibility (`run`'s `pendingItems` filter) -/

/-- The `run` filter:
```
if (item.status === 'completed') return false;
if (item.status === 'awaiting_agent') return false;
if (item.status === 'failed' && (item.attempts >= (this.config.maxRetries || 3))) return false;
return true;
```
-/
def eligible (cfg : LoopConfig) (it : BatchItem) : Bool :=
  if it.status = ItemStatus.completed then false
  else if it.status = ItemStatus.awaiting_agent then false
  else if it.status = ItemStatus.failed ∧ cfg.maxRetriesEff ≤ it.attempts then false
  else true

/-- `const pendingItems = this.checkpoint.items.filter(...)`. -/
def pendingItems (cfg : LoopConfig) (cp : Checkpoint) : List BatchItem :=
  cp.items.filter (eligible cfg)

/-- Modelled from the spec's words (P6 / §4.5 eligibility), for comparison with
the code's filter: an item is skipped iff its status is `completed` or
`awaiting_agent`, or it is `failed` with `attempts ≥ maxRetries`. -/
def specEligible (cfg : LoopConfig) (it : BatchItem) : Prop :=
  ¬(it.status = ItemStatus.completed) ∧
  ¬(it.status = ItemStatus.awaiting_agent) ∧
  ¬(it.status = ItemStatus.failed ∧ cfg.maxRetriesEff ≤ it.attempts)

theorem eligible_iff (cfg : LoopConfig) (it : BatchItem) :
    eligible cfg it = true ↔ specEligible cfg it := by
  unfold eligible specEligible
  split_ifs with h1 h2 h3 <;> simp_all

/-- Indices of eligible items, in input order. -/
def eligibleIdxs (cfg : LoopConfig) (cp : Checkpoint) : List Nat :=
  (List.range cp.items.length).filter (fun i => eligible cfg (itemAt cp i))

theorem eligibleIdxs_nodup (cfg : LoopConfig) (cp : Checkpoint) :
    (eligibleIdxs cfg cp).Nodup :=
  (List.nodup_range _).filter _

theorem mem_eligibleIdxs {cfg : LoopConfig} {cp : Checkpoint} {i : Nat}
    (h : i ∈ eligibleIdxs cfg cp) :
    i < cp.items.length ∧ eligible cfg (itemAt cp i) = true := by
  unfold eligibleIdxs at h
  rcases List.mem_filter.mp h with ⟨hr, he⟩
  exact ⟨List.mem_range.mp hr, he⟩

/-! ## Fresh-checkpoint initialization and `loadCheckpoint` -/

/-- The fresh checkpoint built by `loadCheckpoint` when no checkpoint file
exists: `jobId` is `` `job-${Date.now()}` `` (`now` models `Date.now()`),
`startTime` is `new Date().toISOString()` (`iso`), and each input element
becomes a `pending` item `item-<index>` with `attempts: 0, logs: []`. -/
def initCheckpoint (now : Int) (iso : String) (input : List Json) : Checkpoint :=
  { jobId := "job-" ++ toString now,
    startTime := iso,
    items := input.mapIdx (fun i d =>
      { id := "item-" ++ toString i,
        data := d,
        status := ItemStatus.pending,
        attempts := 0,
        logs := some [] }),
    completedCount := 0,
    failedCount := 0 }

/-- `loadCheckpoint`: if the checkpoint file exists its parsed content is
returned as the checkpoint; otherwise the input is `config.inputData` if that
is truthy (any array, even empty), else the parsed input file when
`config.inputPath` is truthy (non-empty), else `[]`.
`existing` models the parsed content of the checkpoint file when it exists;
`inputFile` models the parsed content of the file at `inputPath`. -/
def loadCheckpoint (cfg : LoopConfig) (existing : Option Checkpoint)
    (inputFile : List Json) (now : Int) (iso : String) : Checkpoint :=
  match existing with
  | some cp => cp
  | none =>
      let inputData :=
        match cfg.inputData with
        | some d => d
        | none => if cfg.inputPath = "" then [] else inputFile
      initCheckpoint now iso inputData

/-! ## The scheduler as a small-step event system

`run` keeps at most `concurrency` invocations in flight, dispatches eligible
items FIFO, and every transition is flushed.  A run's in-memory state is the
checkpoint plus the queue of not-yet-dispatched eligible indices and the
in-flight indices.  Events:
* `dispatch` — the loop body takes the next pending item, marks it
  `processing`/`attempts++` and flushes (guarded by the concurrency check);
* `finish i r` — an in-flight invocation settles with result `r`; the
  `try`/`catch` transition is applied and flushed;
* `wlog i msg` — the in-flight worker calls `context.log`, appending to the
  item's `logs`;
* `restart` — the process stops (normally or by crash, losing in-flight
  invocations) and a new `run` starts from the flushed checkpoint, recomputing
  the eligible queue.  (By the store round-trip, reloading the flushed
  checkpoint yields the same checkpoint value.) -/

structure EngineState where
  cp : Checkpoint
  inflight : List Nat
  queue : List Nat
deriving Repr

/-- The in-memory state at the start of a `run` on checkpoint `cp`. -/
def initState (cfg : LoopConfig) (cp : Checkpoint) : EngineState :=
  { cp := cp, inflight := [], queue := eligibleIdxs cfg cp }

inductive Event where
  | dispatch : Event
  | finish (i : Nat) (r : WorkerResult) : Event
  | wlog (i : Nat) (msg : String) : Event
  | restart : Event
deriving Repr

/-- One scheduler step; `none` when the event is not enabled. -/
def stepE (cfg : LoopConfig) (s : EngineState) : Event → Option EngineState
  | Event.dispatch =>
      match s.queue with
      | [] => none
      | i :: rest =>
          if (s.inflight.length : Int) < cfg.concurrencyEff then
            some { cp := s.cp.updItem i dispatchItem,
                   inflight := s.inflight ++ [i],
                   queue := rest }
          else none
  | Event.finish i r =>
      if i ∈ s.inflight then
        some { cp := finishCheckpoint cfg i r s.cp,
               inflight := s.inflight.erase i,
               queue := s.queue }
      else none
  | Event.wlog i msg =>
      if i ∈ s.inflight then
        some { s with cp := s.cp.updItem i (appendLog msg) }
      else none
  | Event.restart =>
      some (initState cfg s.cp)

/-- Run a sequence of events; `none` if any event is not enabled. -/
def runEvents (cfg : LoopConfig) (s : EngineState) : List Event → Option EngineState
  | [] => some s
  | e :: es =>
      match stepE cfg s e with
      | some s' => runEvents cfg s' es
      | none => none

/-- Number of suspension transitions item `i` makes in an event sequence. -/
def suspCount (i : Nat) (es : List Event) : Nat :=
  es.countP (fun e =>
    match e with
    | Event.finish j (WorkerResult.err (JsError.bridge _)) => j == i
    | _ => false)

/-- An event sequence is crash-free from `s` when every `restart` happens with
no invocation in flight and an empty queue (a completed run followed by a new
process, never a mid-run crash). -/
def crashFreeFrom (cfg : LoopConfig) (s : EngineState) : List Event → Prop
  | [] => True
  | e :: es =>
      (e = Event.restart → s.inflight = [] ∧ s.queue = []) ∧
      ∀ s', stepE cfg s e = some s' → crashFreeFrom cfg s' es

/-- The spec's configuration constraints (§3): `concurrency` positive,
`maxRetries` non-negative (each when supplied). -/
def specSaneConfig (cfg : LoopConfig) : Bool :=
  (match cfg.maxRetries with | none => true | some n => 0 ≤ n) &&
  (match cfg.concurrency with | none => true | some n => 0 < n)

/-- Counting helpers for the invariants. -/
def countCompleted (cp : Checkpoint) : Nat :=
  cp.items.countP (fun it => decide (it.status = ItemStatus.completed))

def countFailedTerminal (cfg : LoopConfig) (cp : Checkpoint) : Nat :=
  cp.items.countP (fun it =>
    decide (it.status = ItemStatus.failed ∧ cfg.maxRetriesEff ≤ it.attempts))

def countProcessing (cp : Checkpoint) : Nat :=
  cp.items.countP (fun it => decide (it.status = ItemStatus.processing))

theorem specSaneConfig_maxRetries {cfg : LoopConfig}
    (h : specSaneConfig cfg = true) : 1 ≤ cfg.maxRetriesEff := by
  unfold specSaneConfig at h
  unfold LoopConfig.maxRetriesEff
  rcases hm : cfg.maxRetries with _ | n
  · norm_num
  · rw [hm] at h
    simp only [Bool.and_eq_true, decide_eq_true_eq] at h
    rcases h with ⟨h1, _⟩
    by_cases hz : n = 0 <;> simp [hz] <;> omega

theorem specSaneConfig_concurrency {cfg : LoopConfig}
    (h : specSaneConfig cfg = true) : 1 ≤ cfg.concurrencyEff := by
  unfold specSaneConfig at h
  unfold LoopConfig.concurrencyEff
  rcases hm : cfg.concurrency with _ | n
  · norm_num
  · rw [hm] at h
    simp only [Bool.and_eq_true, decide_eq_true_eq] at h
    rcases h with ⟨_, h2⟩
    by_cases hz : n = 0 <;> simp [hz] <;> omega

/-! ## List helper lemmas -/

theorem getD_set_self {α : Type} (l : List α) (i : Nat) (x d : α)
    (h : i < l.length) : (l.set i x).getD i d = x := by
  simp [List.getD_eq_getElem?_getD, List.getElem?_set_eq_of_lt x h]

theorem getD_set_ne {α : Type} (l : List α) {i j : Nat} (x d : α) (h : i ≠ j) :
    (l.set i x).getD j d = l.getD j d := by
  simp [List.getD_eq_getElem?_getD, List.getElem?_set_ne h]

theorem countP_set_int {α : Type} (p : α → Bool) (l : List α) (i : Nat)
    (x d : α) (h : i < l.length) :
    ((l.set i x).countP p : Int) =
      (l.countP p : Int) + (if p x then 1 else 0)
        - (if p (l.getD i d) then 1 else 0) := by
  induction l generalizing i with
  | nil => simp at h
  | cons y tl ih =>
    cases i with
    | zero =>
      cases hx : p x <;> cases hy : p y <;>
        simp [List.countP_cons, hx, hy, List.getD_cons_zero]
    | succ n =>
      have hn : n < tl.length := by simpa using h
      cases hy : p y <;>
        simp [List.countP_cons, hy, List.getD_cons_succ, List.set] <;>
        rw [ih n hn] <;> simp only [List.getD_eq_getElem?_getD] <;> ring

theorem countP_eq_length_filter_range {α : Type} (l : List α) (p : α → Bool)
    (d : α) :
    l.countP p = ((List.range l.length).filter (fun i => p (l.getD i d))).length := by
  induction l with
  | nil => simp
  | cons y tl ih =>
    rw [List.countP_cons]
    have hsplit : (List.range (tl.length + 1)).filter
          (fun i => p ((y :: tl).getD i d)) =
        (if p y then [0] else []) ++
          ((List.range tl.length).map Nat.succ).filter
            (fun i => p ((y :: tl).getD i d)) := by
      rw [List.range_succ_eq_map]
      simp only [List.filter_cons]
      cases hy : p y <;> simp [List.getD_cons_zero, hy]
    simp only [List.length_cons, hsplit]
    rw [List.filter_map]
    simp only [List.length_append, List.length_map]
    have hcomp : (fun i => p ((y :: tl).getD i d)) ∘ Nat.succ =
        fun i => p (tl.getD i d) := by
      funext i; simp [List.getD_cons_succ]
    rw [hcomp, ← ih]
    cases hy : p y <;> simp [hy] <;> omega

/-! ## The all-traces invariant (counts, queue eligibility, in-flight statuses)

These properties are preserved by every scheduler step, crash restarts
included, so they hold at every checkpoint flush. -/

structure InvAll (cfg : LoopConfig) (s : EngineState) : Prop where
  completedEq : s.cp.completedCount = (countCompleted s.cp : Int)
  failedEq : s.cp.failedCount = (countFailedTerminal cfg s.cp : Int)
  queueInv : ∀ i ∈ s.queue,
    i < s.cp.items.length ∧ eligible cfg (itemAt s.cp i) = true
  inflightInv : ∀ i ∈ s.inflight,
    i < s.cp.items.length ∧ (itemAt s.cp i).status = ItemStatus.processing
  nodupInv : (s.queue ++ s.inflight).Nodup

theorem itemAt_updItem_self (cp : Checkpoint) (i : Nat) (f : BatchItem → BatchItem)
    (h : i < cp.items.length) : itemAt (cp.updItem i f) i = f (itemAt cp i) :=
  getD_set_self _ _ _ _ h

theorem itemAt_updItem_ne (cp : Checkpoint) {i j : Nat} (f : BatchItem → BatchItem)
    (h : i ≠ j) : itemAt (cp.updItem i f) j = itemAt cp j :=
  getD_set_ne _ _ _ h

theorem length_updItem (cp : Checkpoint) (i : Nat) (f : BatchItem → BatchItem) :
    (cp.updItem i f).items.length = cp.items.length := by
  simp [Checkpoint.updItem]

theorem itemAt_finishCheckpoint_ne (cfg : LoopConfig) (cp : Checkpoint)
    {i j : Nat} (r : WorkerResult) (h : i ≠ j) :
    itemAt (finishCheckpoint cfg i r cp) j = itemAt cp j :=
  getD_set_ne _ _ _ h

theorem itemAt_finishCheckpoint_self (cfg : LoopConfig) (cp : Checkpoint)
    (i : Nat) (r : WorkerResult) (h : i < cp.items.length) :
    itemAt (finishCheckpoint cfg i r cp) i = applyResult r (itemAt cp i) :=
  getD_set_self _ _ _ _ h

theorem length_finishCheckpoint (cfg : LoopConfig) (cp : Checkpoint) (i : Nat)
    (r : WorkerResult) :
    (finishCheckpoint cfg i r cp).items.length = cp.items.length := by
  simp [finishCheckpoint]

theorem InvAll_dispatch (cfg : LoopConfig) (cp : Checkpoint) (fl rest : List Nat)
    (i : Nat) (inv : InvAll cfg ⟨cp, fl, i :: rest⟩) :
    InvAll cfg ⟨cp.updItem i dispatchItem, fl ++ [i], rest⟩ := by
  have hlen : i < cp.items.length := (inv.queueInv i (List.mem_cons_self i rest)).1
  have helig : eligible cfg (itemAt cp i) = true :=
    (inv.queueInv i (List.mem_cons_self i rest)).2
  obtain ⟨hnc, hna, hnf⟩ := (eligible_iff cfg (itemAt cp i)).mp helig
  have hnd : (i :: (rest ++ fl)).Nodup := by
    have := inv.nodupInv; simpa using this
  rw [List.nodup_cons] at hnd
  obtain ⟨hiNot, hndRF⟩ := hnd
  have hiRest : i ∉ rest := fun h => hiNot (List.mem_append_left _ h)
  have hiFl : i ∉ fl := fun h => hiNot (List.mem_append_right _ h)
  have hC : (((cp.updItem i dispatchItem).items.countP
        (fun it => decide (it.status = ItemStatus.completed))) : Int)
      = (cp.items.countP (fun it => decide (it.status = ItemStatus.completed)) : Int) := by
    show (((cp.items.set i (dispatchItem (itemAt cp i))).countP _ : Nat) : Int) = _
    rw [countP_set_int _ _ _ _ default hlen]
    rw [show cp.items.getD i default = itemAt cp i from rfl]
    rw [show decide ((dispatchItem (itemAt cp i)).status = ItemStatus.completed)
          = false by simp [dispatchItem]]
    rw [decide_eq_false hnc]
    simp
  have hF : (((cp.updItem i dispatchItem).items.countP
        (fun it => decide (it.status = ItemStatus.failed ∧
          cfg.maxRetriesEff ≤ it.attempts))) : Int)
      = (cp.items.countP (fun it => decide (it.status = ItemStatus.failed ∧
          cfg.maxRetriesEff ≤ it.attempts)) : Int) := by
    show (((cp.items.set i (dispatchItem (itemAt cp i))).countP _ : Nat) : Int) = _
    rw [countP_set_int _ _ _ _ default hlen]
    rw [show cp.items.getD i default = itemAt cp i from rfl]
    rw [show decide ((dispatchItem (itemAt cp i)).status = ItemStatus.failed ∧
          cfg.maxRetriesEff ≤ (dispatchItem (itemAt cp i)).attempts)
          = false by simp [dispatchItem]]
    rw [decide_eq_false hnf]
    simp
  constructor
  · show (cp.updItem i dispatchItem).completedCount =
      (countCompleted (cp.updItem i dispatchItem) : Int)
    unfold countCompleted
    rw [hC]
    exact inv.completedEq
  · show (cp.updItem i dispatchItem).failedCount =
      (countFailedTerminal cfg (cp.updItem i dispatchItem) : Int)
    unfold countFailedTerminal
    rw [hF]
    exact inv.failedEq
  · intro j hj
    have hne : i ≠ j := fun he => hiRest (he ▸ hj)
    rw [length_updItem, itemAt_updItem_ne _ _ hne]
    exact inv.queueInv j (List.mem_cons_of_mem i hj)
  · intro j hj
    rcases List.mem_append.mp hj with hjf | hji
    · have hne : i ≠ j := fun he => hiFl (he ▸ hjf)
      rw [length_updItem, itemAt_updItem_ne _ _ hne]
      exact inv.inflightInv j hjf
    · have hji' : j = i := by simpa using hji
      subst hji'
      rw [length_updItem, itemAt_updItem_self _ _ _ hlen]
      exact ⟨hlen, rfl⟩
  · show (rest ++ (fl ++ [i])).Nodup
    have hcons : (i :: (rest ++ fl)).Nodup := List.nodup_cons.mpr ⟨hiNot, hndRF⟩
    have := ((List.perm_append_singleton i (rest ++ fl)).nodup_iff).mpr hcons
    simpa [List.append_assoc] using this

theorem InvAll_finish (cfg : LoopConfig) (cp : Checkpoint) (fl q : List Nat)
    (i : Nat) (r : WorkerResult) (hi : i ∈ fl) (inv : InvAll cfg ⟨cp, fl, q⟩) :
    InvAll cfg ⟨finishCheckpoint cfg i r cp, fl.erase i, q⟩ := by
  have hlen : i < cp.items.length := (inv.inflightInv i hi).1
  have hproc : (itemAt cp i).status = ItemStatus.processing :=
    (inv.inflightInv i hi).2
  have hnd : q.Nodup ∧ fl.Nodup ∧ q.Disjoint fl := by
    have := inv.nodupInv; rw [List.nodup_append] at this; exact this
  obtain ⟨hndq, hndf, hdisj⟩ := hnd
  have hCset : (((finishCheckpoint cfg i r cp).items.countP
        (fun it => decide (it.status = ItemStatus.completed))) : Int)
      = (cp.items.countP (fun it => decide (it.status = ItemStatus.completed)) : Int)
        + completedDelta r := by
    show (((cp.items.set i (applyResult r (itemAt cp i))).countP _ : Nat) : Int) = _
    rw [countP_set_int _ _ _ _ default hlen]
    rw [show cp.items.getD i default = itemAt cp i from rfl]
    rw [decide_eq_false
      (show ¬(itemAt cp i).status = ItemStatus.completed by simp [hproc])]
    cases r with
    | ok v => simp [applyResult, completedDelta]
    | err e =>
        cases e with
        | bridge msgs => simp [applyResult, completedDelta]
        | other m => simp [applyResult, completedDelta]
  have hFset : (((finishCheckpoint cfg i r cp).items.countP
        (fun it => decide (it.status = ItemStatus.failed ∧
          cfg.maxRetriesEff ≤ it.attempts))) : Int)
      = (cp.items.countP (fun it => decide (it.status = ItemStatus.failed ∧
          cfg.maxRetriesEff ≤ it.attempts)) : Int)
        + failedDelta cfg r (itemAt cp i) := by
    show (((cp.items.set i (applyResult r (itemAt cp i))).countP _ : Nat) : Int) = _
    rw [countP_set_int _ _ _ _ default hlen]
    rw [show cp.items.getD i default = itemAt cp i from rfl]
    rw [decide_eq_false
      (show ¬((itemAt cp i).status = ItemStatus.failed ∧
        cfg.maxRetriesEff ≤ (itemAt cp i).attempts) by simp [hproc])]
    cases r with
    | ok v => simp [applyResult, failedDelta]
    | err e =>
        cases e with
        | bridge msgs => simp [applyResult, failedDelta]
        | other m =>
            simp only [applyResult, failedDelta]
            by_cases hm : cfg.maxRetriesEff ≤ (itemAt cp i).attempts <;>
              simp [hm]
  have hCE : cp.completedCount =
      ((cp.items.countP (fun it => decide (it.status = ItemStatus.completed)) : Nat) : Int) :=
    inv.completedEq
  have hFE : cp.failedCount =
      ((cp.items.countP (fun it => decide (it.status = ItemStatus.failed ∧
        cfg.maxRetriesEff ≤ it.attempts)) : Nat) : Int) :=
    inv.failedEq
  constructor
  · show cp.completedCount + completedDelta r =
      (countCompleted (finishCheckpoint cfg i r cp) : Int)
    unfold countCompleted
    rw [hCset, hCE]
  · show cp.failedCount + failedDelta cfg r (itemAt cp i) =
      (countFailedTerminal cfg (finishCheckpoint cfg i r cp) : Int)
    unfold countFailedTerminal
    rw [hFset, hFE]
  · intro j hj
    have hne : i ≠ j := fun he => (hdisj hj) (he ▸ hi)
    rw [length_finishCheckpoint, itemAt_finishCheckpoint_ne _ _ _ hne]
    exact inv.queueInv j hj
  · intro j hj
    have hjf : j ∈ fl := List.mem_of_mem_erase hj
    have hne : i ≠ j := by
      intro he
      subst he
      exact (List.Nodup.not_mem_erase hndf) hj
    rw [length_finishCheckpoint, itemAt_finishCheckpoint_ne _ _ _ hne]
    exact inv.inflightInv j hjf
  · exact List.Sublist.nodup ((List.erase_sublist i fl).append_left q) inv.nodupInv

theorem InvAll_wlog (cfg : LoopConfig) (cp : Checkpoint) (fl q : List Nat)
    (i : Nat) (msg : String) (hi : i ∈ fl) (inv : InvAll cfg ⟨cp, fl, q⟩) :
    InvAll cfg ⟨cp.updItem i (appendLog msg), fl, q⟩ := by
  have hlen : i < cp.items.length := (inv.inflightInv i hi).1
  have hproc : (itemAt cp i).status = ItemStatus.processing :=
    (inv.inflightInv i hi).2
  have hdisj : q.Disjoint fl := by
    have := inv.nodupInv; rw [List.nodup_append] at this; exact this.2.2
  have hCset : (((cp.updItem i (appendLog msg)).items.countP
        (fun it => decide (it.status = ItemStatus.completed))) : Int)
      = (cp.items.countP (fun it => decide (it.status = ItemStatus.completed)) : Int) := by
    show (((cp.items.set i (appendLog msg (itemAt cp i))).countP _ : Nat) : Int) = _
    rw [countP_set_int _ _ _ _ default hlen]
    rw [show cp.items.getD i default = itemAt cp i from rfl]
    rw [show decide ((appendLog msg (itemAt cp i)).status = ItemStatus.completed)
          = decide ((itemAt cp i).status = ItemStatus.completed) from rfl]
    ring
  have hFset : (((cp.updItem i (appendLog msg)).items.countP
        (fun it => decide (it.status = ItemStatus.failed ∧
          cfg.maxRetriesEff ≤ it.attempts))) : Int)
      = (cp.items.countP (fun it => decide (it.status = ItemStatus.failed ∧
          cfg.maxRetriesEff ≤ it.attempts)) : Int) := by
    show (((cp.items.set i (appendLog msg (itemAt cp i))).countP _ : Nat) : Int) = _
    rw [countP_set_int _ _ _ _ default hlen]
    rw [show cp.items.getD i default = itemAt cp i from rfl]
    rw [show decide ((appendLog msg (itemAt cp i)).status = ItemStatus.failed ∧
          cfg.maxRetriesEff ≤ (appendLog msg (itemAt cp i)).attempts)
          = decide ((itemAt cp i).status = ItemStatus.failed ∧
          cfg.maxRetriesEff ≤ (itemAt cp i).attempts) from rfl]
    ring
  constructor
  · show cp.completedCount = (countCompleted (cp.updItem i (appendLog msg)) : Int)
    unfold countCompleted
    rw [hCset]
    exact inv.completedEq
  · show cp.failedCount = (countFailedTerminal cfg (cp.updItem i (appendLog msg)) : Int)
    unfold countFailedTerminal
    rw [hFset]
    exact inv.failedEq
  · intro j hj
    have hne : i ≠ j := fun he => (hdisj hj) (he ▸ hi)
    rw [length_updItem, itemAt_updItem_ne _ _ hne]
    exact inv.queueInv j hj
  · intro j hj
    by_cases hne : i = j
    · subst hne
      rw [length_updItem, itemAt_updItem_self _ _ _ hlen]
      exact ⟨hlen, hproc⟩
    · rw [length_updItem, itemAt_updItem_ne _ _ hne]
      exact inv.inflightInv j hj
  · exact inv.nodupInv

theorem InvAll_restart (cfg : LoopConfig) (s : EngineState) (inv : InvAll cfg s) :
    InvAll cfg (initState cfg s.cp) := by
  constructor
  · exact inv.completedEq
  · exact inv.failedEq
  · intro i hi
    exact mem_eligibleIdxs hi
  · intro i hi
    simp [initState] at hi
  · show (eligibleIdxs cfg s.cp ++ []).Nodup
    simpa using eligibleIdxs_nodup cfg s.cp

theorem stepE_InvAll {cfg : LoopConfig} {s s' : EngineState} {e : Event}
    (h : stepE cfg s e = some s') (inv : InvAll cfg s) : InvAll cfg s' := by
  obtain ⟨cp, fl, q⟩ := s
  cases e with
  | dispatch =>
      cases q with
      | nil => simp [stepE] at h
      | cons i rest =>
          simp only [stepE] at h
          by_cases hc : ((fl.length : Int) < cfg.concurrencyEff)
          · rw [if_pos hc] at h
            obtain rfl := Option.some.inj h
            exact InvAll_dispatch cfg cp fl rest i inv
          · rw [if_neg hc] at h
            exact absurd h (by simp)
  | finish i r =>
      simp only [stepE] at h
      by_cases hi : i ∈ fl
      · rw [if_pos hi] at h
        obtain rfl := Option.some.inj h
        exact InvAll_finish cfg cp fl q i r hi inv
      · rw [if_neg hi] at h
        exact absurd h (by simp)
  | wlog i msg =>
      simp only [stepE] at h
      by_cases hi : i ∈ fl
      · rw [if_pos hi] at h
        obtain rfl := Option.some.inj h
        exact InvAll_wlog cfg cp fl q i msg hi inv
      · rw [if_neg hi] at h
        exact absurd h (by simp)
  | restart =>
      simp only [stepE] at h
      obtain rfl := Option.some.inj h
      exact InvAll_restart cfg ⟨cp, fl, q⟩ inv

theorem runEvents_InvAll {cfg : LoopConfig} :
    ∀ (es : List Event) (s s' : EngineState), InvAll cfg s →
      runEvents cfg s es = some s' → InvAll cfg s' := by
  intro es
  induction es with
  | nil =>
      intro s s' inv h
      simp only [runEvents] at h
      obtain rfl := Option.some.inj h
      exact inv
  | cons e es ih =>
      intro s s' inv h
      unfold runEvents at h
      cases hst : stepE cfg s e with
      | none => rw [hst] at h; exact absurd h (by simp)
      | some s1 =>
          rw [hst] at h
          exact ih s1 s' (stepE_InvAll hst inv) h

theorem mapIdx_pending_aux :
    ∀ (l : List Json) (f : Nat → Json → BatchItem),
      (∀ i d, (f i d).status = ItemStatus.pending) →
      ∀ it ∈ l.mapIdx f, it.status = ItemStatus.pending := by
  intro l
  induction l with
  | nil =>
      intro f hf it hit
      simp at hit
  | cons x xs ih =>
      intro f hf it hit
      rw [List.mapIdx_cons] at hit
      rcases List.mem_cons.mp hit with h0 | hmem
      · rw [h0]; exact hf 0 x
      · exact ih _ (fun i d => hf (i+1) d) it hmem

theorem initCheckpoint_pending (now : Int) (iso : String) (input : List Json) :
    ∀ it ∈ (initCheckpoint now iso input).items, it.status = ItemStatus.pending := by
  exact mapIdx_pending_aux input _ (fun i d => rfl)

theorem InvAll_init (cfg : LoopConfig) (now : Int) (iso : String)
    (input : List Json) :
    InvAll cfg (initState cfg (initCheckpoint now iso input)) := by
  have hpend := initCheckpoint_pending now iso input
  constructor
  · show (0 : Int) = (countCompleted (initCheckpoint now iso input) : Int)
    have hz : countCompleted (initCheckpoint now iso input) = 0 := by
      unfold countCompleted
      rw [List.countP_eq_zero]
      intro it hit
      simp [hpend it hit]
    rw [hz]
    rfl
  · show (0 : Int) = (countFailedTerminal cfg (initCheckpoint now iso input) : Int)
    have hz : countFailedTerminal cfg (initCheckpoint now iso input) = 0 := by
      unfold countFailedTerminal
      rw [List.countP_eq_zero]
      intro it hit
      simp [hpend it hit]
    rw [hz]
    rfl
  · intro i hi
    exact mem_eligibleIdxs hi
  · intro i hi
    simp [initState] at hi
  · show (eligibleIdxs cfg (initCheckpoint now iso input) ++ []).Nodup
    simpa using eligibleIdxs_nodup cfg (initCheckpoint now iso input)

theorem stepE_ids {cfg : LoopConfig} {s s' : EngineState} {e : Event}
    (h : stepE cfg s e = some s') :
    s'.cp.jobId = s.cp.jobId ∧ s'.cp.startTime = s.cp.startTime := by
  obtain ⟨cp, fl, q⟩ := s
  cases e with
  | dispatch =>
      cases q with
      | nil => simp [stepE] at h
      | cons i rest =>
          simp only [stepE] at h
          by_cases hc : ((fl.length : Int) < cfg.concurrencyEff)
          · rw [if_pos hc] at h
            obtain rfl := Option.some.inj h
            exact ⟨rfl, rfl⟩
          · rw [if_neg hc] at h
            exact absurd h (by simp)
  | finish i r =>
      simp only [stepE] at h
      by_cases hi : i ∈ fl
      · rw [if_pos hi] at h
        obtain rfl := Option.some.inj h
        exact ⟨rfl, rfl⟩
      · rw [if_neg hi] at h
        exact absurd h (by simp)
  | wlog i msg =>
      simp only [stepE] at h
      by_cases hi : i ∈ fl
      · rw [if_pos hi] at h
        obtain rfl := Option.some.inj h
        exact ⟨rfl, rfl⟩
      · rw [if_neg hi] at h
        exact absurd h (by simp)
  | restart =>
      simp only [stepE] at h
      obtain rfl := Option.some.inj h
      exact ⟨rfl, rfl⟩

theorem runEvents_ids {cfg : LoopConfig} :
    ∀ (es : List Event) (s s' : EngineState),
      runEvents cfg s es = some s' →
      s'.cp.jobId = s.cp.jobId ∧ s'.cp.startTime = s.cp.startTime := by
  intro es
  induction es with
  | nil =>
      intro s s' h
      simp only [runEvents] at h
      obtain rfl := Option.some.inj h
      exact ⟨rfl, rfl⟩
  | cons e es ih =>
      intro s s' h
      unfold runEvents at h
      cases hst : stepE cfg s e with
      | none => rw [hst] at h; exact absurd h (by simp)
      | some s1 =>
          rw [hst] at h
          obtain ⟨h1, h2⟩ := stepE_ids hst
          obtain ⟨h3, h4⟩ := ih s1 s' h
          exact ⟨h3.trans h1, h4.trans h2⟩

/-- A concrete configuration used by the closed witnesses. -/
def cfgEx : LoopConfig :=
  { inputPath := "input.json", checkpointPath := "checkpoint.json" }

/-! ## Claim theorems -/

/-- C1: after every checkpoint flush of a run started from a freshly
initialized checkpoint — for every scheduler event sequence, crash restarts
and every worker outcome included — `completedCount` equals the number of
items with status `completed`, and `failedCount` equals the number of items
with status `failed` and `attempts ≥ maxRetries`. -/
theorem counts_match_after_every_flush (cfg : LoopConfig) (now : Int)
    (iso : String) (input : List Json) (es : List Event) (s : EngineState)
    (h : runEvents cfg (initState cfg (initCheckpoint now iso input)) es = some s) :
    s.cp.completedCount = ((s.cp.items.filter
        (fun it => decide (it.status = ItemStatus.completed))).length : Int) ∧
    s.cp.failedCount = ((s.cp.items.filter
        (fun it => decide (it.status = ItemStatus.failed ∧
          cfg.maxRetriesEff ≤ it.attempts))).length : Int) := by
  have inv := runEvents_InvAll es _ s (InvAll_init cfg now iso input) h
  constructor
  · rw [inv.completedEq]
    unfold countCompleted
    rw [List.countP_eq_length_filter]
  · rw [inv.failedEq]
    unfold countFailedTerminal
    rw [List.countP_eq_length_filter]

/-- Witness for C1 at a concrete one-item job: dispatch then successful
finish. -/
theorem counts_match_after_every_flush_witness :
    ∃ s, runEvents cfgEx (initState cfgEx (initCheckpoint 0 "t0" [Json.null]))
        [Event.dispatch, Event.finish 0 (WorkerResult.ok Json.null)] = some s ∧
      (s.cp.completedCount = ((s.cp.items.filter
          (fun it => decide (it.status = ItemStatus.completed))).length : Int) ∧
       s.cp.failedCount = ((s.cp.items.filter
          (fun it => decide (it.status = ItemStatus.failed ∧
            cfgEx.maxRetriesEff ≤ it.attempts))).length : Int)) :=
  ⟨_, rfl, counts_match_after_every_flush cfgEx 0 "t0" [Json.null]
    [Event.dispatch, Event.finish 0 (WorkerResult.ok Json.null)] _ rfl⟩

/-- C2: the run-start selection keeps exactly the items that are not
`completed`, not `awaiting_agent`, and not (`failed` with
`attempts ≥ maxRetries`), and the selected list is a sublist of the items in
their original input order (dispatch then follows that order). -/
theorem run_selects_eligible_in_order (cfg : LoopConfig) (cp : Checkpoint) :
    (∀ it, it ∈ pendingItems cfg cp ↔ it ∈ cp.items ∧ specEligible cfg it) ∧
    (pendingItems cfg cp).Sublist cp.items := by
  constructor
  · intro it
    unfold pendingItems
    rw [List.mem_filter]
    constructor
    · rintro ⟨hm, he⟩
      exact ⟨hm, (eligible_iff cfg it).mp he⟩
    · rintro ⟨hm, hs⟩
      exact ⟨hm, (eligible_iff cfg it).mpr hs⟩
  · exact List.filter_sublist cp.items

/-- Witness for C2 at a concrete checkpoint. -/
theorem run_selects_eligible_in_order_witness :
    (∀ it, it ∈ pendingItems cfgEx (initCheckpoint 0 "t0" [Json.null]) ↔
      it ∈ (initCheckpoint 0 "t0" [Json.null]).items ∧
        specEligible cfgEx it) ∧
    (pendingItems cfgEx (initCheckpoint 0 "t0" [Json.null])).Sublist
      (initCheckpoint 0 "t0" [Json.null]).items :=
  run_selects_eligible_in_order cfgEx (initCheckpoint 0 "t0" [Json.null])

/-- C3: a worker failure carrying the agent-bridge marker sets the item to
`awaiting_agent`, stores the signal's payload in `pendingPrompt`, and
decrements `attempts` by exactly one — so a full invocation (dispatch then
suspension) leaves `attempts` unchanged, and equal to `0` on a first
invocation; a failure without the marker makes the item `failed` instead. -/
theorem suspension_signal_behaviour (msgs : List Json) (it : BatchItem)
    (m : String) :
    ((applyResult (WorkerResult.err (JsError.bridge msgs)) it).status =
        ItemStatus.awaiting_agent ∧
      (applyResult (WorkerResult.err (JsError.bridge msgs)) it).pendingPrompt =
        some (Json.arr msgs) ∧
      (applyResult (WorkerResult.err (JsError.bridge msgs)) it).attempts =
        it.attempts - 1) ∧
    (applyResult (WorkerResult.err (JsError.bridge msgs))
        (dispatchItem it)).attempts = it.attempts ∧
    (it.attempts = 0 →
      (applyResult (WorkerResult.err (JsError.bridge msgs))
        (dispatchItem it)).attempts = 0) ∧
    ((applyResult (WorkerResult.err (JsError.other m)) it).status =
        ItemStatus.failed ∧
      (applyResult (WorkerResult.err (JsError.other m)) it).lastError = some m) := by
  have hnet : (applyResult (WorkerResult.err (JsError.bridge msgs))
      (dispatchItem it)).attempts = it.attempts := by
    show it.attempts + 1 - 1 = it.attempts
    ring
  refine ⟨⟨rfl, rfl, rfl⟩, hnet, ?_, rfl, rfl⟩
  intro h0
  rw [hnet, h0]

/-- Witness for C3 at a concrete fresh item. -/
theorem suspension_signal_behaviour_witness :
    ((applyResult (WorkerResult.err (JsError.bridge [Json.str "hi"]))
        (default : BatchItem)).status = ItemStatus.awaiting_agent ∧
      (applyResult (WorkerResult.err (JsError.bridge [Json.str "hi"]))
        (default : BatchItem)).pendingPrompt =
          some (Json.arr [Json.str "hi"]) ∧
      (applyResult (WorkerResult.err (JsError.bridge [Json.str "hi"]))
        (default : BatchItem)).attempts = (default : BatchItem).attempts - 1) ∧
    (applyResult (WorkerResult.err (JsError.bridge [Json.str "hi"]))
        (dispatchItem (default : BatchItem))).attempts =
      (default : BatchItem).attempts ∧
    ((default : BatchItem).attempts = 0 →
      (applyResult (WorkerResult.err (JsError.bridge [Json.str "hi"]))
        (dispatchItem (default : BatchItem))).attempts = 0) ∧
    ((applyResult (WorkerResult.err (JsError.other "boom"))
        (default : BatchItem)).status = ItemStatus.failed ∧
      (applyResult (WorkerResult.err (JsError.other "boom"))
        (default : BatchItem)).lastError = some "boom") :=
  suspension_signal_behaviour [Json.str "hi"] default "boom"

/-- C4: with a positive `itemTimeoutMs = t` and a worker that does not settle
within `t` ms, the invocation outcome makes the item `failed` with
`lastError = "Operation timed out after <t>ms"`, and the attempt increment is
kept; with `itemTimeoutMs` absent or `0`, the invoker imposes no timeout. -/
theorem timeout_discipline (cfg : LoopConfig) (t : Int) (w : WorkerBehavior)
    (it : BatchItem) :
    (cfg.itemTimeoutMs = some t → 0 < t → t < w.settleTime →
      ((applyResult (invoke cfg w) (dispatchItem it)).status =
          ItemStatus.failed ∧
        (applyResult (invoke cfg w) (dispatchItem it)).lastError =
          some ("Operation timed out after " ++ toString t ++ "ms") ∧
        (applyResult (invoke cfg w) (dispatchItem it)).attempts =
          it.attempts + 1)) ∧
    ((cfg.itemTimeoutMs = none ∨ cfg.itemTimeoutMs = some 0) →
      invoke cfg w = w.result) := by
  constructor
  · intro ht hpos hlate
    have hinv : invoke cfg w = WorkerResult.err (JsError.other
        ("Operation timed out after " ++ toString t ++ "ms")) := by
      simp [invoke, ht, hpos, hlate]
    rw [hinv]
    exact ⟨rfl, rfl, rfl⟩
  · rintro (h | h) <;> simp [invoke, h]

/-- Witness for C4: `itemTimeoutMs = 100`, worker settling at 2000ms. -/
theorem timeout_discipline_witness :
    ((applyResult (invoke { cfgEx with itemTimeoutMs := some 100 }
          ⟨2000, WorkerResult.ok Json.null⟩)
        (dispatchItem (default : BatchItem))).status = ItemStatus.failed ∧
      (applyResult (invoke { cfgEx with itemTimeoutMs := some 100 }
          ⟨2000, WorkerResult.ok Json.null⟩)
        (dispatchItem (default : BatchItem))).lastError =
          some ("Operation timed out after " ++ toString (100 : Int) ++ "ms") ∧
      (applyResult (invoke { cfgEx with itemTimeoutMs := some 100 }
          ⟨2000, WorkerResult.ok Json.null⟩)
        (dispatchItem (default : BatchItem))).attempts =
        (default : BatchItem).attempts + 1) :=
  (timeout_discipline { cfgEx with itemTimeoutMs := some 100 } 100
    ⟨2000, WorkerResult.ok Json.null⟩ default).1 rfl (by decide) (by decide)

/-- C9: no scheduler operation ever mutates `jobId` or `startTime`: after any
event sequence from a run on checkpoint `cp0`, the in-memory checkpoint (the
value written by every save) still carries `cp0`'s `jobId` and `startTime`. -/
theorem jobId_startTime_stable (cfg : LoopConfig) (cp0 : Checkpoint)
    (es : List Event) (s : EngineState)
    (h : runEvents cfg (initState cfg cp0) es = some s) :
    s.cp.jobId = cp0.jobId ∧ s.cp.startTime = cp0.startTime :=
  runEvents_ids es (initState cfg cp0) s h

/-- Witness for C9 at a concrete run. -/
theorem jobId_startTime_stable_witness :
    ∃ s, runEvents cfgEx (initState cfgEx (initCheckpoint 7 "t7" [Json.null]))
        [Event.dispatch, Event.finish 0 (WorkerResult.err (JsError.other "x")),
          Event.restart] = some s ∧
      s.cp.jobId = (initCheckpoint 7 "t7" [Json.null]).jobId ∧
      s.cp.startTime = (initCheckpoint 7 "t7" [Json.null]).startTime :=
  ⟨_, rfl, jobId_startTime_stable cfgEx (initCheckpoint 7 "t7" [Json.null])
    [Event.dispatch, Event.finish 0 (WorkerResult.err (JsError.other "x")),
      Event.restart] _ rfl⟩

/-! ## Checkpoint store (`saveCheckpoint` / `loadCheckpoint` serialization)

`saveCheckpoint` writes `JSON.stringify(this.checkpoint, null, 2)`;
`loadCheckpoint` reads the file back with `JSON.parse`.  The file is modelled
at the level of its parsed JSON document: saving produces the JSON document
the file holds, loading interprets such a document as a checkpoint.
`JSON.stringify` drops properties whose value is `undefined`, so `none`
optional fields are absent from the document. -/

def statusToString : ItemStatus → String
  | ItemStatus.pending => "pending"
  | ItemStatus.processing => "processing"
  | ItemStatus.completed => "completed"
  | ItemStatus.failed => "failed"
  | ItemStatus.awaiting_agent => "awaiting_agent"

def statusOfString (s : String) : Option ItemStatus :=
  if s = "pending" then some ItemStatus.pending
  else if s = "processing" then some ItemStatus.processing
  else if s = "completed" then some ItemStatus.completed
  else if s = "failed" then some ItemStatus.failed
  else if s = "awaiting_agent" then some ItemStatus.awaiting_agent
  else none

def encodeItem (it : BatchItem) : Json :=
  Json.obj
    ([("id", Json.str it.id), ("data", it.data),
      ("status", Json.str (statusToString it.status)),
      ("attempts", Json.num it.attempts)]
      ++ (match it.lastError with
          | some e => [("lastError", Json.str e)]
          | none => [])
      ++ (match it.pendingPrompt with
          | some p => [("pendingPrompt", p)]
          | none => [])
      ++ (match it.output with
          | some o => [("output", o)]
          | none => [])
      ++ (match it.logs with
          | some ls => [("logs", Json.arr (ls.map Json.str))]
          | none => []))

def encodeCheckpoint (cp : Checkpoint) : Json :=
  Json.obj
    [("jobId", Json.str cp.jobId), ("startTime", Json.str cp.startTime),
     ("items", Json.arr (cp.items.map encodeItem)),
     ("completedCount", Json.num cp.completedCount),
     ("failedCount", Json.num cp.failedCount)]

def decodeLogs : List Json → Option (List String)
  | [] => some []
  | Json.str s :: rest =>
      match decodeLogs rest with
      | some ls => some (s :: ls)
      | none => none
  | _ => none

def decodeItem (j : Json) : Option BatchItem :=
  match j with
  | Json.obj fs =>
      match fs.lookup "id", fs.lookup "data", fs.lookup "status",
          fs.lookup "attempts" with
      | some (Json.str id), some d, some (Json.str st), some (Json.num a) =>
          match statusOfString st with
          | some status =>
              some { id := id, data := d, status := status, attempts := a,
                     lastError :=
                       (match fs.lookup "lastError" with
                        | some (Json.str e) => some e
                        | _ => none),
                     pendingPrompt := fs.lookup "pendingPrompt",
                     output := fs.lookup "output",
                     logs :=
                       (match fs.lookup "logs" with
                        | some (Json.arr xs) => decodeLogs xs
                        | _ => none) }
          | none => none
      | _, _, _, _ => none
  | _ => none

def decodeItems : List Json → Option (List BatchItem)
  | [] => some []
  | j :: js =>
      match decodeItem j, decodeItems js with
      | some it, some its => some (it :: its)
      | _, _ => none

def decodeCheckpoint (j : Json) : Option Checkpoint :=
  match j with
  | Json.obj fs =>
      match fs.lookup "jobId", fs.lookup "startTime", fs.lookup "items",
          fs.lookup "completedCount", fs.lookup "failedCount" with
      | some (Json.str jid), some (Json.str st), some (Json.arr js),
          some (Json.num cc), some (Json.num fc) =>
          match decodeItems js with
          | some its =>
              some { jobId := jid, startTime := st, items := its,
                     completedCount := cc, failedCount := fc }
          | none => none
      | _, _, _, _, _ => none
  | _ => none

/-- `saveCheckpoint`: the JSON document written to `checkpointPath`. -/
def saveCheckpointDoc (cp : Checkpoint) : Json := encodeCheckpoint cp

/-- `loadCheckpoint`'s resume branch: interpret the parsed checkpoint file. -/
def loadCheckpointDoc (j : Json) : Option Checkpoint := decodeCheckpoint j

theorem statusOfString_statusToString (st : ItemStatus) :
    statusOfString (statusToString st) = some st := by
  cases st <;> rfl

theorem decodeLogs_encode (ls : List String) :
    decodeLogs (ls.map Json.str) = some ls := by
  induction ls with
  | nil => rfl
  | cons s rest ih => simp [decodeLogs, ih]

theorem decodeItem_encodeItem (it : BatchItem) :
    decodeItem (encodeItem it) = some it := by
  obtain ⟨id, data, status, attempts, lastError, pendingPrompt, output, logs⟩ := it
  cases lastError <;> cases pendingPrompt <;> cases output <;> cases logs <;>
    simp [encodeItem, decodeItem, List.lookup, statusOfString_statusToString,
      decodeLogs_encode]

theorem decodeItems_encode (its : List BatchItem) :
    decodeItems (its.map encodeItem) = some its := by
  induction its with
  | nil => rfl
  | cons it rest ih => simp [decodeItems, decodeItem_encodeItem, ih]

/-- C7: loading the checkpoint document immediately after saving checkpoint
`cp` yields `cp` back field by field, the order of every item's `logs`
sequence included. -/
theorem load_after_save_roundtrip (cp : Checkpoint) :
    loadCheckpointDoc (saveCheckpointDoc cp) = some cp := by
  obtain ⟨jobId, startTime, items, completedCount, failedCount⟩ := cp
  simp [loadCheckpointDoc, saveCheckpointDoc, encodeCheckpoint, decodeCheckpoint,
    List.lookup, decodeItems_encode]

/-- Witness for C7 at a concrete checkpoint exercising every optional field
and a multi-element `logs` sequence. -/
theorem load_after_save_roundtrip_witness :
    loadCheckpointDoc (saveCheckpointDoc
      { jobId := "job-42", startTime := "2024-01-01T00:00:00.000Z",
        items := [{ id := "item-0", data := Json.num 1,
                    status := ItemStatus.completed, attempts := 1,
                    output := some (Json.num 10),
                    logs := some ["b", "a"] },
                  { id := "item-1", data := Json.null,
                    status := ItemStatus.awaiting_agent, attempts := 0,
                    lastError := some "boom",
                    pendingPrompt := some (Json.arr [Json.str "hi"]),
                    logs := some [] }],
        completedCount := 1, failedCount := 0 }) = some
      { jobId := "job-42", startTime := "2024-01-01T00:00:00.000Z",
        items := [{ id := "item-0", data := Json.num 1,
                    status := ItemStatus.completed, attempts := 1,
                    output := some (Json.num 10),
                    logs := some ["b", "a"] },
                  { id := "item-1", data := Json.null,
                    status := ItemStatus.awaiting_agent, attempts := 0,
                    lastError := some "boom",
                    pendingPrompt := some (Json.arr [Json.str "hi"]),
                    logs := some [] }],
        completedCount := 1, failedCount := 0 } :=
  load_after_save_roundtrip _

/-- C10: when a checkpoint file exists, its parsed content is the whole
resulting state and neither `inputPath` nor `inputData` has any influence;
when none exists, `inputData` (even an empty array — any array is truthy)
takes precedence over `inputPath`, and with neither supplied the job is
created with zero items. -/
theorem loadCheckpoint_source_precedence (cfg : LoopConfig) (cp : Checkpoint)
    (inputFile inputFile' : List Json) (now now' : Int) (iso iso' : String) :
    (loadCheckpoint cfg (some cp) inputFile now iso = cp ∧
     loadCheckpoint cfg (some cp) inputFile now iso =
       loadCheckpoint cfg (some cp) inputFile' now' iso') ∧
    (∀ d, cfg.inputData = some d →
      loadCheckpoint cfg none inputFile now iso = initCheckpoint now iso d) ∧
    (cfg.inputData = none → cfg.inputPath = "" →
      (loadCheckpoint cfg none inputFile now iso).items = []) := by
  refine ⟨⟨rfl, rfl⟩, ?_, ?_⟩
  · intro d hd
    simp [loadCheckpoint, hd]
  · intro hd hp
    simp [loadCheckpoint, hd, hp, initCheckpoint]

/-- Witness for C10: an existing checkpoint wins over both input sources;
`inputData` wins over `inputPath`; no sources give zero items. -/
theorem loadCheckpoint_source_precedence_witness :
    ((loadCheckpoint { cfgEx with inputData := some [Json.num 5] }
        (some (initCheckpoint 1 "t1" [Json.null])) [Json.num 9] 2 "t2" =
        initCheckpoint 1 "t1" [Json.null] ∧
      loadCheckpoint { cfgEx with inputData := some [Json.num 5] }
        (some (initCheckpoint 1 "t1" [Json.null])) [Json.num 9] 2 "t2" =
        loadCheckpoint { cfgEx with inputData := some [Json.num 5] }
          (some (initCheckpoint 1 "t1" [Json.null])) [Json.num 7] 3 "t3") ∧
    (∀ d, ({ cfgEx with inputData := some [Json.num 5] } : LoopConfig).inputData
        = some d →
      loadCheckpoint { cfgEx with inputData := some [Json.num 5] } none
        [Json.num 9] 2 "t2" = initCheckpoint 2 "t2" d) ∧
    (({ cfgEx with inputData := some [Json.num 5] } : LoopConfig).inputData = none →
      ({ cfgEx with inputData := some [Json.num 5] } : LoopConfig).inputPath = "" →
      (loadCheckpoint { cfgEx with inputData := some [Json.num 5] } none
        [Json.num 9] 2 "t2").items = [])) :=
  loadCheckpoint_source_precedence { cfgEx with inputData := some [Json.num 5] }
    (initCheckpoint 1 "t1" [Json.null]) [Json.num 9] [Json.num 7] 2 3 "t2" "t3"

/-! ## Worker-error containment vs. infrastructure errors (`run`/`processItem`)

`processItem` catches every worker rejection in its `try`/`catch`; only the
checkpoint writes (`saveCheckpoint` inside `processItem` and its `finally`)
can raise out of the item-processing step and reject `run`.  The driver below
makes the two flushes of each item explicit; `saveOk` tells whether a given
checkpoint write succeeds.  The worker is an arbitrary function of the item's
`data`; a thrown worker error is the value `WorkerResult.err _`, consumed by
the `catch` transition. -/

def runSeqE (cfg : LoopConfig) (w : Json → WorkerResult)
    (saveOk : Checkpoint → Bool) :
    Checkpoint → List Nat → Except String Checkpoint
  | cp, [] => Except.ok cp
  | cp, i :: rest =>
      let cp1 := cp.updItem i dispatchItem
      if saveOk cp1 then
        let cp2 := finishCheckpoint cfg i (w (itemAt cp1 i).data) cp1
        if saveOk cp2 then runSeqE cfg w saveOk cp2 rest
        else Except.error "checkpoint write failed"
      else Except.error "checkpoint write failed"

/-- The same driver when every checkpoint write succeeds. -/
def runSeqTotal (cfg : LoopConfig) (w : Json → WorkerResult) :
    Checkpoint → List Nat → Checkpoint
  | cp, [] => cp
  | cp, i :: rest =>
      let cp1 := cp.updItem i dispatchItem
      runSeqTotal cfg w (finishCheckpoint cfg i (w (itemAt cp1 i).data) cp1) rest

/-- Statuses terminal for the current run. -/
def terminalForRun (st : ItemStatus) : Bool :=
  match st with
  | ItemStatus.completed => true
  | ItemStatus.failed => true
  | ItemStatus.awaiting_agent => true
  | _ => false

theorem runSeqE_allOk (cfg : LoopConfig) (w : Json → WorkerResult) :
    ∀ (q : List Nat) (cp : Checkpoint),
      runSeqE cfg w (fun _ => true) cp q = Except.ok (runSeqTotal cfg w cp q) := by
  intro q
  induction q with
  | nil => intro cp; rfl
  | cons i rest ih =>
      intro cp
      show runSeqE cfg w (fun _ => true) cp (i :: rest) = _
      unfold runSeqE runSeqTotal
      simp only [if_true]
      exact ih _

theorem terminalForRun_applyResult (r : WorkerResult) (it : BatchItem) :
    terminalForRun (applyResult r it).status = true := by
  cases r with
  | ok v => rfl
  | err e => cases e with
    | bridge msgs => rfl
    | other m => rfl

theorem runSeqTotal_preserves (cfg : LoopConfig) (w : Json → WorkerResult) :
    ∀ (q : List Nat) (cp : Checkpoint) (j : Nat), j ∉ q →
      itemAt (runSeqTotal cfg w cp q) j = itemAt cp j := by
  intro q
  induction q with
  | nil => intro cp j _; rfl
  | cons i rest ih =>
      intro cp j hj
      have hji : j ≠ i := fun he => hj (he ▸ List.mem_cons_self i rest)
      have hjr : j ∉ rest := fun hr => hj (List.mem_cons_of_mem i hr)
      unfold runSeqTotal
      rw [ih _ j hjr, itemAt_finishCheckpoint_ne _ _ _ (Ne.symm hji),
        itemAt_updItem_ne _ _ (Ne.symm hji)]

theorem runSeqTotal_length (cfg : LoopConfig) (w : Json → WorkerResult) :
    ∀ (q : List Nat) (cp : Checkpoint),
      (runSeqTotal cfg w cp q).items.length = cp.items.length := by
  intro q
  induction q with
  | nil => intro cp; rfl
  | cons i rest ih =>
      intro cp
      unfold runSeqTotal
      rw [ih _, length_finishCheckpoint, length_updItem]

theorem runSeqTotal_terminal (cfg : LoopConfig) (w : Json → WorkerResult) :
    ∀ (q : List Nat) (cp : Checkpoint), q.Nodup →
      (∀ i ∈ q, i < cp.items.length) →
      ∀ i ∈ q, terminalForRun (itemAt (runSeqTotal cfg w cp q) i).status = true := by
  intro q
  induction q with
  | nil => intro cp _ _ i hi; simp at hi
  | cons k rest ih =>
      intro cp hnd hbound i hi
      have hknd : k ∉ rest ∧ rest.Nodup := List.nodup_cons.mp hnd
      have hklen : k < cp.items.length := hbound k (List.mem_cons_self k rest)
      rcases List.mem_cons.mp hi with rfl | hir
      · unfold runSeqTotal
        rw [runSeqTotal_preserves cfg w rest _ i hknd.1]
        rw [itemAt_finishCheckpoint_self _ _ _ _ (by rw [length_updItem]; exact hklen)]
        exact terminalForRun_applyResult _ _
      · unfold runSeqTotal
        refine ih _ hknd.2 ?_ i hir
        intro j hj
        rw [length_finishCheckpoint, length_updItem]
        exact hbound j (List.mem_cons_of_mem k hj)

/-- C8: worker errors never propagate out of the item-processing step — with
checkpoint writes succeeding, the run resolves normally for **every** worker
(including one whose every invocation throws), having driven every eligible
item to a terminal-for-this-run status; an infrastructure error (a failing
checkpoint write) aborts the run with an error instead. -/
theorem worker_errors_never_propagate (cfg : LoopConfig)
    (w : Json → WorkerResult) (cp0 : Checkpoint) :
    (runSeqE cfg w (fun _ => true) cp0 (eligibleIdxs cfg cp0) =
      Except.ok (runSeqTotal cfg w cp0 (eligibleIdxs cfg cp0))) ∧
    (∀ i ∈ eligibleIdxs cfg cp0,
      terminalForRun (itemAt (runSeqTotal cfg w cp0
        (eligibleIdxs cfg cp0)) i).status = true) ∧
    (∀ (cp : Checkpoint) (i : Nat) (rest : List Nat),
      runSeqE cfg w (fun _ => false) cp (i :: rest) =
        Except.error "checkpoint write failed") := by
  refine ⟨runSeqE_allOk cfg w _ cp0, ?_, fun cp i rest => rfl⟩
  refine runSeqTotal_terminal cfg w _ cp0 (eligibleIdxs_nodup cfg cp0) ?_
  intro i hi
  exact (mem_eligibleIdxs hi).1

/-- Witness for C8: a two-item fresh job whose worker always throws; the run
returns `ok` and both items end `failed`; with failing writes the run aborts. -/
theorem worker_errors_never_propagate_witness :
    (runSeqE cfgEx (fun _ => WorkerResult.err (JsError.other "boom"))
        (fun _ => true) (initCheckpoint 0 "t0" [Json.null, Json.bool true])
        (eligibleIdxs cfgEx (initCheckpoint 0 "t0" [Json.null, Json.bool true])) =
      Except.ok (runSeqTotal cfgEx (fun _ => WorkerResult.err (JsError.other "boom"))
        (initCheckpoint 0 "t0" [Json.null, Json.bool true])
        (eligibleIdxs cfgEx (initCheckpoint 0 "t0" [Json.null, Json.bool true])))) ∧
    (terminalForRun (itemAt (runSeqTotal cfgEx
        (fun _ => WorkerResult.err (JsError.other "boom"))
        (initCheckpoint 0 "t0" [Json.null, Json.bool true])
        (eligibleIdxs cfgEx (initCheckpoint 0 "t0" [Json.null, Json.bool true])))
        1).status = true) ∧
    (runSeqE cfgEx (fun _ => WorkerResult.err (JsError.other "boom"))
        (fun _ => false) (initCheckpoint 0 "t0" [Json.null, Json.bool true])
        [0, 1] = Except.error "checkpoint write failed") := by
  refine ⟨(worker_errors_never_propagate cfgEx
      (fun _ => WorkerResult.err (JsError.other "boom"))
      (initCheckpoint 0 "t0" [Json.null, Json.bool true])).1,
    (worker_errors_never_propagate cfgEx
      (fun _ => WorkerResult.err (JsError.other "boom"))
      (initCheckpoint 0 "t0" [Json.null, Json.bool true])).2.1 1 (by decide),
    (worker_errors_never_propagate cfgEx
      (fun _ => WorkerResult.err (JsError.other "boom"))
      (initCheckpoint 0 "t0" [Json.null, Json.bool true])).2.2 _ 0 [1]⟩

/-! ## Refutations: the crash-sensitive bounds (claims on `attempts` and on
the `processing` count) -/

/-- Counterexample to C5 as stated: with the default `maxRetries = 3` and no
suspension at all (`K = 0`), a crash right after each `processing` flush
leaves the item in `processing`, which the next run's filter keeps eligible;
four such dispatches drive `attempts` to `4 > maxRetries + K`. -/
theorem attempts_bound_counterexample :
    ∃ s, runEvents cfgEx (initState cfgEx (initCheckpoint 0 "t0" [Json.null]))
        [Event.dispatch, Event.restart, Event.dispatch, Event.restart,
          Event.dispatch, Event.restart, Event.dispatch] = some s ∧
      ¬((itemAt s.cp 0).attempts ≤ cfgEx.maxRetriesEff +
        (suspCount 0 [Event.dispatch, Event.restart, Event.dispatch,
          Event.restart, Event.dispatch, Event.restart, Event.dispatch] : Int)) :=
  ⟨_, rfl, by decide⟩

/-- A checkpoint left behind by a crash with two items stranded in
`processing`. -/
def strandedCp : Checkpoint :=
  { jobId := "job-0", startTime := "t0",
    items := [{ id := "item-0", data := Json.null,
                status := ItemStatus.processing, attempts := 1,
                logs := some [] },
              { id := "item-1", data := Json.null,
                status := ItemStatus.processing, attempts := 1,
                logs := some [] }],
    completedCount := 0, failedCount := 0 }

/-- Counterexample to C6 as stated: on a starting checkpoint with two items
stranded in `processing` and `concurrency = 1` (the default), right after the
first dispatch the in-memory checkpoint holds two `processing` items —
more than `concurrency`. -/
theorem processing_bound_counterexample :
    ∃ s, runEvents cfgEx (initState cfgEx strandedCp) [Event.dispatch] = some s ∧
      ¬((countProcessing s.cp : Int) ≤ cfgEx.concurrencyEff) :=
  ⟨_, rfl, by decide⟩

theorem nodup_shift {i : Nat} {rest fl : List Nat}
    (h : ((i :: rest) ++ fl).Nodup) : (rest ++ (fl ++ [i])).Nodup := by
  have hnd : (i :: (rest ++ fl)).Nodup := by simpa using h
  have := ((List.perm_append_singleton i (rest ++ fl)).nodup_iff).mpr hnd
  simpa [List.append_assoc] using this

theorem nodup_parts {q fl : List Nat} (h : (q ++ fl).Nodup) :
    q.Nodup ∧ fl.Nodup ∧ q.Disjoint fl := by
  rw [List.nodup_append] at h
  exact h

theorem itemAt_mem (cp : Checkpoint) (i : Nat) (h : i < cp.items.length) :
    itemAt cp i ∈ cp.items := by
  unfold itemAt
  rw [List.getD_eq_getElem?_getD, List.getElem?_eq_getElem h]
  simp

/-! ## The crash-free invariant for the concurrency bound -/

structure InvB (cfg : LoopConfig) (s : EngineState) : Prop where
  inflightProc : ∀ i ∈ s.inflight,
    i < s.cp.items.length ∧ (itemAt s.cp i).status = ItemStatus.processing
  procInflight : ∀ i, i < s.cp.items.length →
    (itemAt s.cp i).status = ItemStatus.processing → i ∈ s.inflight
  queueBound : ∀ i ∈ s.queue, i < s.cp.items.length
  nodupQI : (s.queue ++ s.inflight).Nodup
  inflightLen : (s.inflight.length : Int) ≤ cfg.concurrencyEff

theorem countProcessing_le_inflight (s : EngineState)
    (hproc : ∀ i, i < s.cp.items.length →
      (itemAt s.cp i).status = ItemStatus.processing → i ∈ s.inflight)
    (hnd : s.inflight.Nodup) :
    (countProcessing s.cp : Int) ≤ (s.inflight.length : Int) := by
  have h1 : countProcessing s.cp =
      ((List.range s.cp.items.length).filter
        (fun i => decide ((itemAt s.cp i).status = ItemStatus.processing))).length :=
    countP_eq_length_filter_range _ _ default
  have hsub : ((List.range s.cp.items.length).filter
      (fun i => decide ((itemAt s.cp i).status = ItemStatus.processing)))
      ⊆ s.inflight := by
    intro j hj
    rcases List.mem_filter.mp hj with ⟨hr, hp⟩
    exact hproc j (List.mem_range.mp hr) (of_decide_eq_true hp)
  have hnd2 : ((List.range s.cp.items.length).filter
      (fun i => decide ((itemAt s.cp i).status = ItemStatus.processing))).Nodup :=
    (List.nodup_range _).filter _
  have hle := (List.subperm_of_subset hnd2 hsub).length_le
  rw [h1]
  exact_mod_cast hle

theorem InvB_dispatch (cfg : LoopConfig) (cp : Checkpoint) (fl rest : List Nat)
    (i : Nat) (hc : (fl.length : Int) < cfg.concurrencyEff)
    (inv : InvB cfg ⟨cp, fl, i :: rest⟩) :
    InvB cfg ⟨cp.updItem i dispatchItem, fl ++ [i], rest⟩ := by
  have hlen : i < cp.items.length := inv.queueBound i (List.mem_cons_self i rest)
  have hnd0 : (i :: (rest ++ fl)).Nodup := by simpa using inv.nodupQI
  obtain ⟨hiNot, hndRF⟩ := List.nodup_cons.mp hnd0
  have hiFl : i ∉ fl := fun h => hiNot (List.mem_append_right _ h)
  constructor
  · intro j hj
    rcases List.mem_append.mp hj with hjf | hji
    · have hne : i ≠ j := fun he => hiFl (he ▸ hjf)
      rw [length_updItem, itemAt_updItem_ne _ _ hne]
      exact inv.inflightProc j hjf
    · have hj' : j = i := by simpa using hji
      subst hj'
      rw [length_updItem, itemAt_updItem_self _ _ _ hlen]
      exact ⟨hlen, rfl⟩
  · intro j hjlen hjproc
    rw [length_updItem] at hjlen
    by_cases hji : j = i
    · subst hji
      exact List.mem_append_right _ (by simp)
    · rw [itemAt_updItem_ne _ _ (Ne.symm hji)] at hjproc
      exact List.mem_append_left _ (inv.procInflight j hjlen hjproc)
  · intro j hj
    rw [length_updItem]
    exact inv.queueBound j (List.mem_cons_of_mem i hj)
  · exact nodup_shift inv.nodupQI
  · show (((fl ++ [i]).length : Nat) : Int) ≤ _
    rw [List.length_append, List.length_singleton]
    push_cast
    omega

theorem InvB_finish (cfg : LoopConfig) (cp : Checkpoint) (fl q : List Nat)
    (i : Nat) (r : WorkerResult) (hi : i ∈ fl) (inv : InvB cfg ⟨cp, fl, q⟩) :
    InvB cfg ⟨finishCheckpoint cfg i r cp, fl.erase i, q⟩ := by
  have hlen : i < cp.items.length := (inv.inflightProc i hi).1
  obtain ⟨hndq, hndf, hdisj⟩ := nodup_parts inv.nodupQI
  constructor
  · intro j hj
    have hjf : j ∈ fl := List.mem_of_mem_erase hj
    have hne : i ≠ j := by
      intro he
      subst he
      exact (List.Nodup.not_mem_erase hndf) hj
    rw [length_finishCheckpoint, itemAt_finishCheckpoint_ne _ _ _ hne]
    exact inv.inflightProc j hjf
  · intro j hjlen hjproc
    rw [length_finishCheckpoint] at hjlen
    by_cases hji : j = i
    · subst hji
      rw [itemAt_finishCheckpoint_self _ _ _ _ hlen] at hjproc
      exact absurd hjproc (by
        cases r with
        | ok v => simp [applyResult]
        | err e =>
            cases e with
            | bridge m => simp [applyResult]
            | other m => simp [applyResult])
    · rw [itemAt_finishCheckpoint_ne _ _ _ (Ne.symm hji)] at hjproc
      exact (List.mem_erase_of_ne hji).mpr (inv.procInflight j hjlen hjproc)
  · intro j hj
    rw [length_finishCheckpoint]
    exact inv.queueBound j hj
  · exact List.Sublist.nodup ((List.erase_sublist i fl).append_left q) inv.nodupQI
  · have h1 : ((fl.erase i).length : Int) ≤ (fl.length : Int) := by
      exact_mod_cast (List.erase_sublist i fl).length_le
    exact le_trans h1 inv.inflightLen

theorem InvB_wlog (cfg : LoopConfig) (cp : Checkpoint) (fl q : List Nat)
    (i : Nat) (msg : String) (hi : i ∈ fl) (inv : InvB cfg ⟨cp, fl, q⟩) :
    InvB cfg ⟨cp.updItem i (appendLog msg), fl, q⟩ := by
  have hlen : i < cp.items.length := (inv.inflightProc i hi).1
  constructor
  · intro j hj
    by_cases hji : i = j
    · subst hji
      rw [length_updItem, itemAt_updItem_self _ _ _ hlen]
      exact ⟨hlen, (inv.inflightProc i hi).2⟩
    · rw [length_updItem, itemAt_updItem_ne _ _ hji]
      exact inv.inflightProc j hj
  · intro j hjlen hjproc
    rw [length_updItem] at hjlen
    by_cases hji : j = i
    · subst hji
      exact hi
    · rw [itemAt_updItem_ne _ _ (Ne.symm hji)] at hjproc
      exact inv.procInflight j hjlen hjproc
  · intro j hj
    rw [length_updItem]
    exact inv.queueBound j hj
  · exact inv.nodupQI
  · exact inv.inflightLen

theorem InvB_restart (cfg : LoopConfig) (s : EngineState) (hfl : s.inflight = [])
    (hc : 0 ≤ cfg.concurrencyEff) (inv : InvB cfg s) :
    InvB cfg (initState cfg s.cp) := by
  have hnoproc : ∀ i, i < s.cp.items.length →
      (itemAt s.cp i).status ≠ ItemStatus.processing := by
    intro i hilen hproc0
    have hmem := inv.procInflight i hilen hproc0
    rw [hfl] at hmem
    simp at hmem
  constructor
  · intro j hj
    simp [initState] at hj
  · intro j hjlen hjproc
    exact absurd hjproc (hnoproc j hjlen)
  · intro j hj
    exact (mem_eligibleIdxs hj).1
  · show (eligibleIdxs cfg s.cp ++ []).Nodup
    simpa using eligibleIdxs_nodup cfg s.cp
  · show ((([] : List Nat).length : Nat) : Int) ≤ _
    simpa using hc

theorem stepE_InvB {cfg : LoopConfig} (hc1 : 1 ≤ cfg.concurrencyEff)
    {s s' : EngineState} {e : Event} (h : stepE cfg s e = some s')
    (hcf : e = Event.restart → s.inflight = [])
    (inv : InvB cfg s) : InvB cfg s' := by
  obtain ⟨cp, fl, q⟩ := s
  cases e with
  | dispatch =>
      cases q with
      | nil => simp [stepE] at h
      | cons i rest =>
          simp only [stepE] at h
          by_cases hc : ((fl.length : Int) < cfg.concurrencyEff)
          · rw [if_pos hc] at h
            obtain rfl := Option.some.inj h
            exact InvB_dispatch cfg cp fl rest i hc inv
          · rw [if_neg hc] at h
            exact absurd h (by simp)
  | finish i r =>
      simp only [stepE] at h
      by_cases hi : i ∈ fl
      · rw [if_pos hi] at h
        obtain rfl := Option.some.inj h
        exact InvB_finish cfg cp fl q i r hi inv
      · rw [if_neg hi] at h
        exact absurd h (by simp)
  | wlog i msg =>
      simp only [stepE] at h
      by_cases hi : i ∈ fl
      · rw [if_pos hi] at h
        obtain rfl := Option.some.inj h
        exact InvB_wlog cfg cp fl q i msg hi inv
      · rw [if_neg hi] at h
        exact absurd h (by simp)
  | restart =>
      simp only [stepE] at h
      obtain rfl := Option.some.inj h
      exact InvB_restart cfg ⟨cp, fl, q⟩ (hcf rfl) (le_trans zero_le_one hc1) inv

theorem runEvents_InvB {cfg : LoopConfig} (hc1 : 1 ≤ cfg.concurrencyEff) :
    ∀ (es : List Event) (s s' : EngineState), InvB cfg s →
      crashFreeFrom cfg s es → runEvents cfg s es = some s' → InvB cfg s' := by
  intro es
  induction es with
  | nil =>
      intro s s' inv hcf h
      simp only [runEvents] at h
      obtain rfl := Option.some.inj h
      exact inv
  | cons e es ih =>
      intro s s' inv hcf h
      unfold runEvents at h
      cases hst : stepE cfg s e with
      | none => rw [hst] at h; exact absurd h (by simp)
      | some s1 =>
          rw [hst] at h
          obtain ⟨hc0, hrest⟩ := hcf
          exact ih s1 s' (stepE_InvB hc1 hst (fun he => (hc0 he).1) inv)
            (hrest s1 hst) h

/-- C6 as amended: for a spec-conforming configuration (positive
`concurrency`), a run starting from a checkpoint with **no** items stranded in
`processing`, and no mid-run crash restarts, the in-memory checkpoint never
holds more than `concurrency` items with status `processing`.  (With stranded
`processing` items the bound fails — see the counterexample.) -/
theorem processing_bounded (cfg : LoopConfig)
    (hsane : specSaneConfig cfg = true) (cp0 : Checkpoint)
    (h0 : countProcessing cp0 = 0) (es : List Event) (s : EngineState)
    (hrun : runEvents cfg (initState cfg cp0) es = some s)
    (hcf : crashFreeFrom cfg (initState cfg cp0) es) :
    (countProcessing s.cp : Int) ≤ cfg.concurrencyEff := by
  have hc1 := specSaneConfig_concurrency hsane
  have hinit : InvB cfg (initState cfg cp0) := by
    have hnoproc : ∀ it ∈ cp0.items, ¬(it.status = ItemStatus.processing) := by
      unfold countProcessing at h0
      rw [List.countP_eq_zero] at h0
      intro it hit
      have := h0 it hit
      simpa using this
    constructor
    · intro j hj
      simp [initState] at hj
    · intro j hjlen hjproc
      exact absurd hjproc (hnoproc _ (itemAt_mem cp0 j hjlen))
    · intro j hj
      exact (mem_eligibleIdxs hj).1
    · show (eligibleIdxs cfg cp0 ++ []).Nodup
      simpa using eligibleIdxs_nodup cfg cp0
    · show ((([] : List Nat).length : Nat) : Int) ≤ _
      simpa using le_trans zero_le_one hc1
  have hinv := runEvents_InvB hc1 es _ s hinit hcf hrun
  exact le_trans
    (countProcessing_le_inflight s hinv.procInflight (nodup_parts hinv.nodupQI).2.1)
    hinv.inflightLen

/-- Witness for C6 as amended, on a fresh one-item job after its dispatch. -/
theorem processing_bounded_witness :
    ∃ s, runEvents cfgEx (initState cfgEx (initCheckpoint 0 "t0" [Json.null]))
        [Event.dispatch] = some s ∧
      (countProcessing s.cp : Int) ≤ cfgEx.concurrencyEff := by
  refine ⟨_, rfl, processing_bounded cfgEx (by decide)
    (initCheckpoint 0 "t0" [Json.null]) (by decide) [Event.dispatch] _ rfl ?_⟩
  refine ⟨?_, ?_⟩
  · intro h
    cases h
  · intro s' _
    trivial

/-! ## The crash-free invariant for the attempts bound -/

structure InvCF (cfg : LoopConfig) (s : EngineState) : Prop where
  inflightB : ∀ i ∈ s.inflight,
    i < s.cp.items.length ∧ (itemAt s.cp i).status = ItemStatus.processing ∧
      1 ≤ (itemAt s.cp i).attempts
  procInflight : ∀ i, i < s.cp.items.length →
    (itemAt s.cp i).status = ItemStatus.processing → i ∈ s.inflight
  queueShape : ∀ i ∈ s.queue,
    i < s.cp.items.length ∧
      ((itemAt s.cp i).status = ItemStatus.pending ∧ (itemAt s.cp i).attempts = 0 ∨
        (itemAt s.cp i).status = ItemStatus.failed ∧
          (itemAt s.cp i).attempts < cfg.maxRetriesEff)
  pendingZero : ∀ i, i < s.cp.items.length →
    (itemAt s.cp i).status = ItemStatus.pending → (itemAt s.cp i).attempts = 0
  attemptsB : ∀ i, i < s.cp.items.length →
    0 ≤ (itemAt s.cp i).attempts ∧ (itemAt s.cp i).attempts ≤ cfg.maxRetriesEff
  nodupQI : (s.queue ++ s.inflight).Nodup

theorem InvCF_dispatch (cfg : LoopConfig) (cp : Checkpoint) (fl rest : List Nat)
    (i : Nat) (hm : 1 ≤ cfg.maxRetriesEff) (inv : InvCF cfg ⟨cp, fl, i :: rest⟩) :
    InvCF cfg ⟨cp.updItem i dispatchItem, fl ++ [i], rest⟩ := by
  have hq : i < cp.items.length ∧
      ((itemAt cp i).status = ItemStatus.pending ∧ (itemAt cp i).attempts = 0 ∨
        (itemAt cp i).status = ItemStatus.failed ∧
          (itemAt cp i).attempts < cfg.maxRetriesEff) :=
    inv.queueShape i (List.mem_cons_self i rest)
  have hlen : i < cp.items.length := hq.1
  have hnd0 : (i :: (rest ++ fl)).Nodup := by simpa using inv.nodupQI
  obtain ⟨hiNot, hndRF⟩ := List.nodup_cons.mp hnd0
  have hiFl : i ∉ fl := fun h => hiNot (List.mem_append_right _ h)
  have ha0 : 0 ≤ (itemAt cp i).attempts := (inv.attemptsB i hlen).1
  constructor
  · intro j hj
    rcases List.mem_append.mp hj with hjf | hji
    · have hne : i ≠ j := fun he => hiFl (he ▸ hjf)
      rw [length_updItem, itemAt_updItem_ne _ _ hne]
      exact inv.inflightB j hjf
    · have hj' : j = i := by simpa using hji
      subst hj'
      rw [length_updItem, itemAt_updItem_self _ _ _ hlen]
      refine ⟨hlen, rfl, ?_⟩
      show 1 ≤ (itemAt cp j).attempts + 1
      omega
  · intro j hjlen hjproc
    rw [length_updItem] at hjlen
    by_cases hji : j = i
    · subst hji
      exact List.mem_append_right _ (by simp)
    · rw [itemAt_updItem_ne _ _ (Ne.symm hji)] at hjproc
      exact List.mem_append_left _ (inv.procInflight j hjlen hjproc)
  · intro j hj
    have hne : i ≠ j := fun he =>
      (fun h => hiNot (List.mem_append_left _ h)) (he ▸ hj)
    rw [length_updItem, itemAt_updItem_ne _ _ hne]
    exact inv.queueShape j (List.mem_cons_of_mem i hj)
  · intro j hjlen hjpend
    rw [length_updItem] at hjlen
    by_cases hji : j = i
    · subst hji
      rw [itemAt_updItem_self _ _ _ hlen] at hjpend
      exact absurd hjpend (by simp [dispatchItem])
    · rw [itemAt_updItem_ne _ _ (Ne.symm hji)] at hjpend ⊢
      exact inv.pendingZero j hjlen hjpend
  · intro j hjlen
    rw [length_updItem] at hjlen
    by_cases hji : j = i
    · subst hji
      rw [itemAt_updItem_self _ _ _ hlen]
      show 0 ≤ (itemAt cp j).attempts + 1 ∧
        (itemAt cp j).attempts + 1 ≤ cfg.maxRetriesEff
      rcases hq.2 with ⟨_, hz⟩ | ⟨_, hlt⟩
      · omega
      · omega
    · rw [itemAt_updItem_ne _ _ (Ne.symm hji)]
      exact inv.attemptsB j hjlen
  · exact nodup_shift inv.nodupQI

theorem InvCF_finish (cfg : LoopConfig) (cp : Checkpoint) (fl q : List Nat)
    (i : Nat) (r : WorkerResult) (hi : i ∈ fl) (inv : InvCF cfg ⟨cp, fl, q⟩) :
    InvCF cfg ⟨finishCheckpoint cfg i r cp, fl.erase i, q⟩ := by
  have hlen : i < cp.items.length := (inv.inflightB i hi).1
  have hproc : (itemAt cp i).status = ItemStatus.processing :=
    (inv.inflightB i hi).2.1
  have hatt1 : 1 ≤ (itemAt cp i).attempts := (inv.inflightB i hi).2.2
  obtain ⟨hndq, hndf, hdisj⟩ := nodup_parts inv.nodupQI
  have hattB : 0 ≤ (itemAt cp i).attempts ∧
      (itemAt cp i).attempts ≤ cfg.maxRetriesEff :=
    inv.attemptsB i hlen
  constructor
  · intro j hj
    have hjf : j ∈ fl := List.mem_of_mem_erase hj
    have hne : i ≠ j := by
      intro he
      subst he
      exact (List.Nodup.not_mem_erase hndf) hj
    rw [length_finishCheckpoint, itemAt_finishCheckpoint_ne _ _ _ hne]
    exact inv.inflightB j hjf
  · intro j hjlen hjproc
    rw [length_finishCheckpoint] at hjlen
    by_cases hji : j = i
    · subst hji
      rw [itemAt_finishCheckpoint_self _ _ _ _ hlen] at hjproc
      exact absurd hjproc (by
        cases r with
        | ok v => simp [applyResult]
        | err e =>
            cases e with
            | bridge m => simp [applyResult]
            | other m => simp [applyResult])
    · rw [itemAt_finishCheckpoint_ne _ _ _ (Ne.symm hji)] at hjproc
      exact (List.mem_erase_of_ne hji).mpr (inv.procInflight j hjlen hjproc)
  · intro j hj
    have hne : i ≠ j := fun he => (hdisj (he ▸ hj)) hi
    rw [length_finishCheckpoint, itemAt_finishCheckpoint_ne _ _ _ hne]
    exact inv.queueShape j hj
  · intro j hjlen hjpend
    rw [length_finishCheckpoint] at hjlen
    by_cases hji : j = i
    · subst hji
      rw [itemAt_finishCheckpoint_self _ _ _ _ hlen] at hjpend
      exact absurd hjpend (by
        cases r with
        | ok v => simp [applyResult]
        | err e =>
            cases e with
            | bridge m => simp [applyResult]
            | other m => simp [applyResult])
    · rw [itemAt_finishCheckpoint_ne _ _ _ (Ne.symm hji)] at hjpend ⊢
      exact inv.pendingZero j hjlen hjpend
  · intro j hjlen
    rw [length_finishCheckpoint] at hjlen
    by_cases hji : j = i
    · subst hji
      rw [itemAt_finishCheckpoint_self _ _ _ _ hlen]
      cases r with
      | ok v =>
          show 0 ≤ (itemAt cp j).attempts ∧ _
          exact hattB
      | err e =>
          cases e with
          | bridge m =>
              show 0 ≤ (itemAt cp j).attempts - 1 ∧
                (itemAt cp j).attempts - 1 ≤ cfg.maxRetriesEff
              omega
          | other m =>
              show 0 ≤ (itemAt cp j).attempts ∧ _
              exact hattB
    · rw [itemAt_finishCheckpoint_ne _ _ _ (Ne.symm hji)]
      exact inv.attemptsB j hjlen
  · exact List.Sublist.nodup ((List.erase_sublist i fl).append_left q) inv.nodupQI

theorem InvCF_wlog (cfg : LoopConfig) (cp : Checkpoint) (fl q : List Nat)
    (i : Nat) (msg : String) (hi : i ∈ fl) (inv : InvCF cfg ⟨cp, fl, q⟩) :
    InvCF cfg ⟨cp.updItem i (appendLog msg), fl, q⟩ := by
  have hlen : i < cp.items.length := (inv.inflightB i hi).1
  constructor
  · intro j hj
    by_cases hji : i = j
    · subst hji
      rw [length_updItem, itemAt_updItem_self _ _ _ hlen]
      exact ⟨hlen, (inv.inflightB _ hi).2.1, (inv.inflightB _ hi).2.2⟩
    · rw [length_updItem, itemAt_updItem_ne _ _ hji]
      exact inv.inflightB j hj
  · intro j hjlen hjproc
    rw [length_updItem] at hjlen
    by_cases hji : j = i
    · subst hji
      exact hi
    · rw [itemAt_updItem_ne _ _ (Ne.symm hji)] at hjproc
      exact inv.procInflight j hjlen hjproc
  · intro j hj
    by_cases hji : i = j
    · subst hji
      rw [length_updItem, itemAt_updItem_self _ _ _ hlen]
      exact inv.queueShape _ hj
    · rw [length_updItem, itemAt_updItem_ne _ _ hji]
      exact inv.queueShape j hj
  · intro j hjlen hjpend
    rw [length_updItem] at hjlen
    by_cases hji : j = i
    · subst hji
      rw [itemAt_updItem_self _ _ _ hlen] at hjpend ⊢
      exact inv.pendingZero _ hjlen hjpend
    · rw [itemAt_updItem_ne _ _ (Ne.symm hji)] at hjpend ⊢
      exact inv.pendingZero j hjlen hjpend
  · intro j hjlen
    rw [length_updItem] at hjlen
    by_cases hji : j = i
    · subst hji
      rw [itemAt_updItem_self _ _ _ hlen]
      exact inv.attemptsB _ hjlen
    · rw [itemAt_updItem_ne _ _ (Ne.symm hji)]
      exact inv.attemptsB j hjlen
  · exact inv.nodupQI

theorem InvCF_restart (cfg : LoopConfig) (s : EngineState)
    (hfl : s.inflight = []) (inv : InvCF cfg s) :
    InvCF cfg (initState cfg s.cp) := by
  have hnoproc : ∀ i, i < s.cp.items.length →
      (itemAt s.cp i).status ≠ ItemStatus.processing := by
    intro i hilen hproc0
    have hmem := inv.procInflight i hilen hproc0
    rw [hfl] at hmem
    simp at hmem
  constructor
  · intro j hj
    simp [initState] at hj
  · intro j hjlen hjproc
    exact absurd hjproc (hnoproc j hjlen)
  · intro j hj
    obtain ⟨hjlen, helig⟩ := mem_eligibleIdxs hj
    obtain ⟨hnc, hna, hnf⟩ := (eligible_iff cfg (itemAt s.cp j)).mp helig
    refine ⟨hjlen, ?_⟩
    rcases hst : (itemAt s.cp j).status with _ | _ | _ | _ | _
    · exact Or.inl ⟨hst, inv.pendingZero j hjlen hst⟩
    · exact absurd hst (hnoproc j hjlen)
    · exact absurd hst hnc
    · refine Or.inr ⟨hst, ?_⟩
      by_contra hge
      exact hnf ⟨hst, le_of_not_lt hge⟩
    · exact absurd hst hna
  · exact inv.pendingZero
  · exact inv.attemptsB
  · show (eligibleIdxs cfg s.cp ++ []).Nodup
    simpa using eligibleIdxs_nodup cfg s.cp

theorem stepE_InvCF {cfg : LoopConfig} (hm : 1 ≤ cfg.maxRetriesEff)
    {s s' : EngineState} {e : Event} (h : stepE cfg s e = some s')
    (hcf : e = Event.restart → s.inflight = [])
    (inv : InvCF cfg s) : InvCF cfg s' := by
  obtain ⟨cp, fl, q⟩ := s
  cases e with
  | dispatch =>
      cases q with
      | nil => simp [stepE] at h
      | cons i rest =>
          simp only [stepE] at h
          by_cases hc : ((fl.length : Int) < cfg.concurrencyEff)
          · rw [if_pos hc] at h
            obtain rfl := Option.some.inj h
            exact InvCF_dispatch cfg cp fl rest i hm inv
          · rw [if_neg hc] at h
            exact absurd h (by simp)
  | finish i r =>
      simp only [stepE] at h
      by_cases hi : i ∈ fl
      · rw [if_pos hi] at h
        obtain rfl := Option.some.inj h
        exact InvCF_finish cfg cp fl q i r hi inv
      · rw [if_neg hi] at h
        exact absurd h (by simp)
  | wlog i msg =>
      simp only [stepE] at h
      by_cases hi : i ∈ fl
      · rw [if_pos hi] at h
        obtain rfl := Option.some.inj h
        exact InvCF_wlog cfg cp fl q i msg hi inv
      · rw [if_neg hi] at h
        exact absurd h (by simp)
  | restart =>
      simp only [stepE] at h
      obtain rfl := Option.some.inj h
      exact InvCF_restart cfg ⟨cp, fl, q⟩ (hcf rfl) inv

theorem runEvents_InvCF {cfg : LoopConfig} (hm : 1 ≤ cfg.maxRetriesEff) :
    ∀ (es : List Event) (s s' : EngineState), InvCF cfg s →
      crashFreeFrom cfg s es → runEvents cfg s es = some s' → InvCF cfg s' := by
  intro es
  induction es with
  | nil =>
      intro s s' inv hcf h
      simp only [runEvents] at h
      obtain rfl := Option.some.inj h
      exact inv
  | cons e es ih =>
      intro s s' inv hcf h
      unfold runEvents at h
      cases hst : stepE cfg s e with
      | none => rw [hst] at h; exact absurd h (by simp)
      | some s1 =>
          rw [hst] at h
          obtain ⟨hc0, hrest⟩ := hcf
          exact ih s1 s' (stepE_InvCF hm hst (fun he => (hc0 he).1) inv)
            (hrest s1 hst) h

theorem mapIdx_forall_aux (P : BatchItem → Prop) :
    ∀ (l : List Json) (f : Nat → Json → BatchItem),
      (∀ i d, P (f i d)) → ∀ it ∈ l.mapIdx f, P it := by
  intro l
  induction l with
  | nil =>
      intro f hf it hit
      simp at hit
  | cons x xs ih =>
      intro f hf it hit
      rw [List.mapIdx_cons] at hit
      rcases List.mem_cons.mp hit with h0 | hmem
      · rw [h0]
        exact hf 0 x
      · exact ih _ (fun i d => hf (i+1) d) it hmem

theorem initCheckpoint_itemAt (now : Int) (iso : String) (input : List Json)
    (i : Nat) (h : i < (initCheckpoint now iso input).items.length) :
    (itemAt (initCheckpoint now iso input) i).status = ItemStatus.pending ∧
    (itemAt (initCheckpoint now iso input) i).attempts = 0 :=
  mapIdx_forall_aux
    (fun it => it.status = ItemStatus.pending ∧ it.attempts = 0)
    input _ (fun _ _ => ⟨rfl, rfl⟩) _ (itemAt_mem _ i h)

theorem InvCF_init (cfg : LoopConfig) (hm : 1 ≤ cfg.maxRetriesEff) (now : Int)
    (iso : String) (input : List Json) :
    InvCF cfg (initState cfg (initCheckpoint now iso input)) := by
  constructor
  · intro j hj
    simp [initState] at hj
  · intro j hjlen hjproc
    have hjproc' : (itemAt (initCheckpoint now iso input) j).status =
        ItemStatus.processing := hjproc
    rw [(initCheckpoint_itemAt now iso input j hjlen).1] at hjproc'
    exact absurd hjproc' (by simp)
  · intro j hj
    obtain ⟨hjlen, _⟩ := mem_eligibleIdxs hj
    obtain ⟨h1, h2⟩ := initCheckpoint_itemAt now iso input j hjlen
    exact ⟨hjlen, Or.inl ⟨h1, h2⟩⟩
  · intro j hjlen _
    exact (initCheckpoint_itemAt now iso input j hjlen).2
  · intro j hjlen
    show 0 ≤ (itemAt (initCheckpoint now iso input) j).attempts ∧
      (itemAt (initCheckpoint now iso input) j).attempts ≤ cfg.maxRetriesEff
    rw [(initCheckpoint_itemAt now iso input j hjlen).2]
    omega
  · show (eligibleIdxs cfg (initCheckpoint now iso input) ++ []).Nodup
    simpa using eligibleIdxs_nodup cfg (initCheckpoint now iso input)

/-- C5 as amended: in crash-free executions from a fresh checkpoint (every
restart happens between completed runs, never mid-run) with a spec-conforming
configuration (`maxRetries` non-negative), every item always satisfies
`attempts ≥ 0` and `attempts ≤ maxRetries + K`, `K` the number of its
suspension transitions; indeed `attempts ≤ maxRetries` outright.  (Crash
restarts break the bound by re-dispatching items stranded in `processing` —
see the counterexample.) -/
theorem attempts_bounded (cfg : LoopConfig) (hsane : specSaneConfig cfg = true)
    (now : Int) (iso : String) (input : List Json) (es : List Event)
    (s : EngineState)
    (hrun : runEvents cfg (initState cfg (initCheckpoint now iso input)) es = some s)
    (hcf : crashFreeFrom cfg (initState cfg (initCheckpoint now iso input)) es) :
    ∀ i, i < s.cp.items.length →
      0 ≤ (itemAt s.cp i).attempts ∧
      (itemAt s.cp i).attempts ≤ cfg.maxRetriesEff + (suspCount i es : Int) := by
  have hm := specSaneConfig_maxRetries hsane
  have hinv := runEvents_InvCF hm es _ s (InvCF_init cfg hm now iso input) hcf hrun
  intro i hi
  obtain ⟨h0, h1⟩ := hinv.attemptsB i hi
  have hk : (0 : Int) ≤ (suspCount i es : Int) := Int.ofNat_nonneg _
  exact ⟨h0, by omega⟩

/-- Witness for C5 as amended, on a fresh one-item job with the empty event
sequence. -/
theorem attempts_bounded_witness :
    0 ≤ (itemAt (initState cfgEx (initCheckpoint 0 "t0" [Json.null])).cp 0).attempts ∧
    (itemAt (initState cfgEx (initCheckpoint 0 "t0" [Json.null])).cp 0).attempts ≤
      cfgEx.maxRetriesEff + (suspCount 0 ([] : List Event) : Int) :=
  attempts_bounded cfgEx (by decide) 0 "t0" [Json.null] [] _ rfl trivial 0 (by decide)

end LoopEngineModel
